import Mathlib

/-!
# Verification of the interflow duplex bridge (`src/duplex.rs`)

This file shallowly embeds the duplex bridge of the interflow audio library:
the `InputProxy` input-side callback, the `DuplexCallback` output-side
callback, and `DuplexStreamHandle::eject`.  Two complementary models are used:

* an *invocation-level* model of one `DuplexCallback::on_output_data` call,
  with the hand-off channel consumer's buffered frames explicit, and
* a *trace-level* model of the whole two-thread system (both mailboxes, the
  proxy and callback control state), with ghost logs recording constructed
  channels, adopted consumers, successfully published rates, pushed audio
  chunks and logged errors.

Samples are only ever moved (copied, interleaved, zero-initialised), never
computed with, so the `f32` sample type is embedded as `Int`.

The audio-buffer container lives outside the provided sources; its operations
(`num_samples`, `set_frame`, slicing, chunking, interleaved copy) are
modelled from the specification, as are the mailbox (single-slot,
non-blocking) and resampling hand-off channel capabilities.
-/

set_option autoImplicit false

/-- Audio samples are moved, never arithmetically combined, by the bridge;
we embed `f32` as `Int`. -/
abbrev Sample := Int

/-- Modelled from the spec: the audio-buffer container (`AudioBuffer<f32>`,
repository code outside the provided sources).  "Owns a flat sample store of
size channels × frames; supports bounded mutable per-frame writes and
immutable slicing"; we store it frame-major as a list of frames, each frame
being the samples of all channels at one instant. -/
structure AudioBufferM where
  numChannels : Nat
  frames : List (List Sample)
deriving DecidableEq, Repr

/-- Number of frames held by the buffer (`AudioBuffer::num_samples`). -/
def AudioBufferM.num_samples (b : AudioBufferM) : Nat := b.frames.length

/-- Modelled from the spec: `AudioBuffer::zeroed(channels, samples)`. -/
def AudioBufferM.zeroed (channels samples : Nat) : AudioBufferM :=
  ⟨channels, List.replicate samples (List.replicate channels 0)⟩

/-- Modelled from the spec: bounded mutable per-frame write
(`AudioBuffer::set_frame`). -/
def AudioBufferM.set_frame (b : AudioBufferM) (i : Nat) (f : List Sample) :
    AudioBufferM :=
  { b with frames := b.frames.set i f }

/-- Modelled from the spec: immutable slicing `buffer.slice(..n)`, as the
list of the first `n` frames. -/
def AudioBufferM.slice_to (b : AudioBufferM) (n : Nat) : List (List Sample) :=
  b.frames.take n

/-- Modelled from the spec: "copy into interleaved transforms channel-major
storage into a single interleaved run": frame 0's channels, then frame 1's,
and so on. -/
def AudioBufferM.interleaved (b : AudioBufferM) : List Sample :=
  b.frames.flatten

/-- Modelled from the spec: `AudioBuffer::copy_into_interleaved(dest)`
returns whether the copy succeeded, i.e. whether the destination slice has
exactly `num_samples * num_channels` room. -/
def AudioBufferM.copy_into_interleaved (b : AudioBufferM) (destLen : Nat) :
    Bool :=
  destLen = b.num_samples * b.numChannels

/-- Split a list into consecutive chunks of at most 32 elements
(`buffer.chunks(32)` over frames). -/
def chunkFrames : List (List Sample) → List (List (List Sample))
  | [] => []
  | x :: xs => (x :: xs.take 31) :: chunkFrames (xs.drop 31)
termination_by l => l.length
decreasing_by
  simp only [List.length_drop, List.length_cons]
  omega

/-- Modelled from the spec: `buffer.chunks(32)`, each chunk an audio buffer
over the same channels covering at most 32 consecutive frames. -/
def AudioBufferM.chunks32 (b : AudioBufferM) : List AudioBufferM :=
  (chunkFrames b.frames).map fun fs => ⟨b.numChannels, fs⟩

/-- `MAX_CHANNELS` from `duplex.rs`. -/
def MAX_CHANNELS : Nat := 64

/-- Modelled from the spec: the consumer half of the resampling hand-off
channel (`fixed_resample::ResamplingCons<f32>`, an external capability).
`bufFrames` are the frames ready to be read at the output rate;
`jitterLimit` is the largest buffered frame count tolerated by
`discard_jitter(0.5)` (the tolerance expressed in frames). -/
structure ResamplingConsM where
  bufFrames : List (List Sample)
  jitterLimit : Nat
deriving DecidableEq, Repr

/-- Modelled from the spec: `discard_jitter` "discards frames beyond
tolerance", dropping the oldest frames in excess of the tolerated count
and reporting how many were discarded. -/
def ResamplingConsM.discard_jitter (c : ResamplingConsM) :
    ResamplingConsM × Nat :=
  let n := c.bufFrames.length
  if c.jitterLimit < n then
    ({ c with bufFrames := c.bufFrames.drop (n - c.jitterLimit) },
      n - c.jitterLimit)
  else (c, 0)

/-- `ResamplingCons::available_frames`: frames ready to read. -/
def ResamplingConsM.available_frames (c : ResamplingConsM) : Nat :=
  c.bufFrames.length

/-- A frame adjusted to exactly `n` samples (zero padded). -/
def padFrame (n : Nat) (f : List Sample) : List Sample :=
  f.take n ++ List.replicate (n - f.length) 0

/-- Modelled from the spec: `ResamplingCons::read_interleaved` pops the
oldest buffered frame into a destination of `numChannels` samples (zeros
when the channel is empty). -/
def ResamplingConsM.read_interleaved (c : ResamplingConsM)
    (numChannels : Nat) : ResamplingConsM × List Sample :=
  match c.bufFrames with
  | [] => (c, List.replicate numChannels 0)
  | f :: rest => ({ c with bufFrames := rest }, padFrame numChannels f)

/-- The output-side duplex callback state (`DuplexCallback<Callback>` from
`duplex.rs`): the adopted consumer, the two mailbox endpoints it touches
(the input→output mailbox content and the output→input mailbox occupancy,
single-slot and non-blocking per the spec), the persistent scratch buffer
`storage` and the cached last published output sample rate.  The user
callback value is carried so `into_inner` can return it. -/
structure DuplexCallbackM (Cb : Type) where
  input : Option ResamplingConsM
  receive_consumer : Option ResamplingConsM
  send_samplerate : Option Nat
  callback : Cb
  storage : AudioBufferM
  current_samplerate : Nat

/-- `DuplexCallback::into_inner`: always returns the wrapped callback. -/
def DuplexCallbackM.into_inner {Cb : Type} (s : DuplexCallbackM Cb) :
    Except String Cb :=
  .ok s.callback

/-- The read loop of `on_output_data`: for `count` iterations starting at
frame index `i`, read one interleaved frame from the consumer into the
scratch frame and store it at index `i` of the storage buffer. -/
def readFrames : Nat → Nat → ResamplingConsM → AudioBufferM →
    ResamplingConsM × AudioBufferM
  | 0, _, c, st => (c, st)
  | Nat.succ k, i, c, st =>
    let r := c.read_interleaved st.numChannels
    readFrames k (i + 1) r.fst (st.set_frame i r.snd)

/-- What one `on_output_data` invocation produces: the updated callback
state, the frame count read from the channel, and the (input view, output
buffer) pair handed to the user's duplex callback. -/
structure OutputInvocation (Cb : Type) where
  state : DuplexCallbackM Cb
  num_samples : Nat
  userInput : List (List Sample)
  userOutput : AudioBufferM

/-- One invocation of `DuplexCallback::on_output_data` (`duplex.rs` lines
166-211): publish the observed output sample rate when it changed and the
mailbox accepts it; adopt a newly published consumer from the input→output
mailbox; when a consumer is present, correct jitter then read
`min(storage.num_samples(), available_frames())` frames one at a time into
the scratch storage, else read zero frames; finally hand the user callback
the input view `storage.slice(..num_samples)` together with the untouched
live output buffer. -/
def DuplexCallbackM.on_output_data {Cb : Type} (s : DuplexCallbackM Cb)
    (samplerate : Nat) (output : AudioBufferM) : OutputInvocation Cb :=
  let pub : Nat × Option Nat :=
    if samplerate ≠ s.current_samplerate then
      match s.send_samplerate with
      | none => (samplerate, some samplerate)
      | some r => (s.current_samplerate, some r)
    else (s.current_samplerate, s.send_samplerate)
  let inp : Option ResamplingConsM :=
    match s.receive_consumer with
    | some c => some c
    | none => s.input
  match inp with
  | some c =>
    let jc := c.discard_jitter
    let n := min s.storage.num_samples jc.fst.available_frames
    let rs := readFrames n 0 jc.fst s.storage
    { state := { input := some rs.fst, receive_consumer := none,
                 send_samplerate := pub.snd, callback := s.callback,
                 storage := rs.snd, current_samplerate := pub.fst },
      num_samples := n,
      userInput := rs.snd.slice_to n,
      userOutput := output }
  | none =>
    { state := { input := none, receive_consumer := none,
                 send_samplerate := pub.snd, callback := s.callback,
                 storage := s.storage, current_samplerate := pub.fst },
      num_samples := 0,
      userInput := s.storage.slice_to 0,
      userOutput := output }

/-- Error-level log entries the duplex bridge emits on the input side
(`log::error!` in `InputProxy::on_input_data`; the underflow report lives in
the external channel capability and is not tracked). -/
inductive ErrTag where
  | noInputChannels
  | sendChannelFailed
deriving DecidableEq, Repr

/-- The trace-level system state: the two single-slot mailboxes, the
producer id held by the input proxy, the consumer id held by the duplex
callback, the callback's cached published rate, a fresh-id counter, and
ghost logs (every push of an interleaved chunk with its channel id, every
channel construction, every consumer adoption, every successfully published
rate, every error-level log).  Frame transport through the channel is
settled on the invocation-level model; this model tracks control state. -/
structure SysState where
  rateMb : Option Nat
  consMb : Option Nat
  producer : Option Nat
  inputCons : Option Nat
  current_samplerate : Nat
  nextId : Nat
  pushLog : List (Nat × List Sample)
  constructed : List Nat
  adopted : List Nat
  pushedRates : List Nat
  errors : List ErrTag
deriving DecidableEq, Repr

/-- The state both sides start from after `create_duplex_stream`: empty
mailboxes, no producer, no consumer, cached rate 0, no history. -/
def initState : SysState :=
  { rateMb := none, consMb := none, producer := none, inputCons := none,
    current_samplerate := 0, nextId := 0, pushLog := [], constructed := [],
    adopted := [], pushedRates := [], errors := [] }

/-- The audio-forwarding tail of `InputProxy::on_input_data` (lines
111-127): with no producer the captured audio is dropped; otherwise each
at-most-32-frame chunk is copied into interleaved form and pushed into the
producer side (recorded in the ghost push log with the producer's id). -/
def pushAudio (s : SysState) (buf : AudioBufferM) : SysState :=
  match s.producer with
  | none => s
  | some pid =>
    { s with pushLog :=
        s.pushLog ++ buf.chunks32.map fun c => (pid, c.interleaved) }

/-- One invocation of `InputProxy::on_input_data` (`duplex.rs` lines
76-128): pop the output→input mailbox; when a target rate is present,
return early with an error log if the context reports zero channels, else
construct a fresh hand-off channel, retain its producer half (replacing any
previous one) and publish its consumer half into the input→output mailbox
(an occupied slot rejects the publish, which is logged); then forward the
captured audio through the producer when one exists. -/
def inputStep (s : SysState) (channels _samplerate : Nat)
    (buf : AudioBufferM) : SysState :=
  match s.rateMb with
  | none => pushAudio s buf
  | some _outRate =>
    if channels = 0 then
      { s with rateMb := none, errors := s.errors ++ [.noInputChannels] }
    else
      let cid := s.nextId
      let s1 : SysState :=
        { s with rateMb := none, nextId := cid + 1, producer := some cid,
                 constructed := s.constructed ++ [cid] }
      let s2 : SysState :=
        match s1.consMb with
        | none => { s1 with consMb := some cid }
        | some _ => { s1 with errors := s1.errors ++ [.sendChannelFailed] }
      pushAudio s2 buf

/-- The rate-publishing head of `DuplexCallback::on_output_data` (lines
167-174): when the observed rate differs from the cached one, push it into
the output→input mailbox; only on a successful push is the cached rate
updated (and the ghost publish log extended). -/
def publishStep (s : SysState) (samplerate : Nat) : SysState :=
  if samplerate ≠ s.current_samplerate then
    match s.rateMb with
    | none =>
      { s with rateMb := some samplerate, current_samplerate := samplerate,
               pushedRates := s.pushedRates ++ [samplerate] }
    | some _ => s
  else s

/-- The consumer-adoption part of `DuplexCallback::on_output_data` (lines
176-184): pop the input→output mailbox and, when a consumer is present,
adopt it, replacing any existing one (recorded in the ghost adoption
log). -/
def adoptStep (s : SysState) : SysState :=
  match s.consMb with
  | some cid =>
    { s with inputCons := some cid, consMb := none,
             adopted := s.adopted ++ [cid] }
  | none => s

/-- One invocation of `DuplexCallback::on_output_data` at the trace level:
rate publishing then consumer adoption (the frame reads and the user
callback touch only the scratch storage and the channel's buffered frames,
which this model leaves to the invocation-level embedding). -/
def outputStep (s : SysState) (samplerate : Nat) : SysState :=
  adoptStep (publishStep s samplerate)

/-- A hardware-driven callback invocation: either the input callback with
its context's channel count and sample rate and the captured buffer, or the
output callback with its context's sample rate. -/
inductive Ev where
  | inputCb (channels samplerate : Nat) (buf : AudioBufferM)
  | outputCb (samplerate : Nat)
deriving DecidableEq, Repr

/-- Dispatch one event to its side's callback. -/
def step (s : SysState) : Ev → SysState
  | .inputCb ch sr buf => inputStep s ch sr buf
  | .outputCb sr => outputStep s sr

/-- Run a whole interleaved trace of hardware invocations. -/
def run (s : SysState) : List Ev → SysState
  | [] => s
  | e :: t => run (step s e) t

/-- The output sample rates observed by the duplex callback along a trace,
in order. -/
def observedRates (t : List Ev) : List Nat :=
  t.filterMap fun e =>
    match e with
    | .outputCb sr => some sr
    | .inputCb _ _ _ => none

/-- Changes relative to a previous value: how many adjacent steps of
`prev :: l` differ. -/
def numChangesFrom (prev : Nat) : List Nat → Nat
  | [] => 0
  | r :: rest => (if r = prev then 0 else 1) + numChangesFrom r rest

/-- How many times a sequence of observed rates changes after its first
element. -/
def numChanges : List Nat → Nat
  | [] => 0
  | r :: rest => numChangesFrom r rest

/-- The error type of duplex stream operations
(`DuplexCallbackError<InputError, OutputError>`); the boxed dynamic error of
the `Other` variant is embedded as a string. -/
inductive DuplexCallbackError (ε1 ε2 : Type) where
  | NoInputChannels
  | InputError (e : ε1)
  | OutputError (e : ε2)
  | Other (e : String)
deriving DecidableEq

/-- The three strictly ordered stages of `DuplexStreamHandle::eject`. -/
inductive EjectStage where
  | stopInput
  | stopOutput
  | unwrapCallback
deriving DecidableEq, Repr

/-- `DuplexStreamHandle::eject` (`duplex.rs` lines 279-291), over the
outcomes the two underlying stream handles' eject calls would produce: stop
the input stream (its failure tagged input-side), then stop the output
stream (its failure tagged output-side), then unwrap the duplex callback
(its failure tagged `Other`).  The ghost stage list records which stages
were reached, in order. -/
def ejectM {ε1 ε2 Cb : Type} (inRes : Except ε1 Unit)
    (outRes : Except ε2 (DuplexCallbackM Cb)) :
    Except (DuplexCallbackError ε1 ε2) Cb × List EjectStage :=
  match inRes with
  | .error e => (.error (.InputError e), [.stopInput])
  | .ok _ =>
    match outRes with
    | .error e => (.error (.OutputError e), [.stopInput, .stopOutput])
    | .ok dc =>
      match dc.into_inner with
      | .ok cb =>
        (.ok cb, [.stopInput, .stopOutput, .unwrapCallback])
      | .error e =>
        (.error (.Other e), [.stopInput, .stopOutput, .unwrapCallback])

/-- How `on_output_data` transforms the cached published rate and the
output→input mailbox: both are assigned exactly when the observed rate
differs from the cached one and the mailbox slot is free. -/
theorem on_output_data_publish_fields {Cb : Type} (s : DuplexCallbackM Cb)
    (sr : Nat) (out : AudioBufferM) :
    (s.on_output_data sr out).state.current_samplerate
      = (if sr ≠ s.current_samplerate ∧ s.send_samplerate = none then sr
         else s.current_samplerate)
    ∧ (s.on_output_data sr out).state.send_samplerate
      = (if sr ≠ s.current_samplerate ∧ s.send_samplerate = none then some sr
         else s.send_samplerate) := by
  rcases s with ⟨inp, recv, send, cb, st, cur⟩
  by_cases h : sr = cur <;>
    cases send <;> cases recv <;> cases inp <;>
      simp [DuplexCallbackM.on_output_data, h]

/-- C6: every `on_output_data` invocation updates the cached last-published
output sample rate exactly when the publish into the output→input mailbox
succeeds (the rate differs and the slot is free); after a failed publish the
cached value and the mailbox are unchanged, so the rate still differs from
the cached value and the publish is retried at the next invocation that
observes it. -/
theorem onOutputData_cached_rate_iff_publish {Cb : Type}
    (s : DuplexCallbackM Cb) (sr : Nat) (out : AudioBufferM) :
    ((s.on_output_data sr out).state.current_samplerate ≠ s.current_samplerate
      ↔ sr ≠ s.current_samplerate ∧ s.send_samplerate = none)
    ∧ (sr ≠ s.current_samplerate ∧ s.send_samplerate = none →
        (s.on_output_data sr out).state.current_samplerate = sr
        ∧ (s.on_output_data sr out).state.send_samplerate = some sr)
    ∧ (sr ≠ s.current_samplerate ∧ s.send_samplerate ≠ none →
        (s.on_output_data sr out).state.current_samplerate
          = s.current_samplerate
        ∧ (s.on_output_data sr out).state.send_samplerate = s.send_samplerate
        ∧ sr ≠ (s.on_output_data sr out).state.current_samplerate) := by
  obtain ⟨h1, h2⟩ := on_output_data_publish_fields s sr out
  by_cases hc : sr ≠ s.current_samplerate ∧ s.send_samplerate = none
  · rw [if_pos hc] at h1
    rw [if_pos hc] at h2
    refine ⟨?_, fun _ => ⟨h1, h2⟩, fun hbad => absurd hc.2 hbad.2⟩
    rw [h1]
    exact ⟨fun _ => hc, fun _ => hc.1⟩
  · rw [if_neg hc] at h1
    rw [if_neg hc] at h2
    refine ⟨by simp [h1, hc], fun hgood => absurd hgood hc, fun hfail => ?_⟩
    refine ⟨h1, h2, ?_⟩
    rw [h1]; exact hfail.1

/-- C2: `eject` of a duplex stream handle stops the input stream first (its
failure tagged as an input-side error and nothing further attempted), then
the output stream (its failure tagged as an output-side error, unwrapping
not attempted), then unwraps the duplex callback; on full success the
original user callback is returned after all three stages ran in order. -/
theorem ejectM_ordered_short_circuit {ε1 ε2 Cb : Type}
    (inRes : Except ε1 Unit) (outRes : Except ε2 (DuplexCallbackM Cb)) :
    (∀ e, inRes = .error e →
      ejectM inRes outRes = (.error (.InputError e), [.stopInput]))
    ∧ (∀ e, inRes = .ok () → outRes = .error e →
      ejectM inRes outRes
        = (.error (.OutputError e), [.stopInput, .stopOutput]))
    ∧ (∀ dc, inRes = .ok () → outRes = .ok dc →
      ejectM inRes outRes
        = (.ok dc.callback, [.stopInput, .stopOutput, .unwrapCallback])) := by
  refine ⟨fun e h1 => ?_, fun e h1 h2 => ?_, fun dc h1 h2 => ?_⟩ <;>
    subst h1 <;> first
      | rfl
      | (subst h2; rfl)

/-- C10: `into_inner` always returns the wrapped user callback, so the
`Other` failure class of duplex `eject` is unreachable: `eject` can only
fail input-side or output-side. -/
theorem intoInner_ok_other_unreachable {ε1 ε2 Cb : Type} :
    (∀ dc : DuplexCallbackM Cb, dc.into_inner = .ok dc.callback)
    ∧ ∀ (inRes : Except ε1 Unit) (outRes : Except ε2 (DuplexCallbackM Cb))
        (e : DuplexCallbackError ε1 ε2),
        (ejectM inRes outRes).fst = .error e →
        (∃ e1, e = .InputError e1) ∨ ∃ e2, e = .OutputError e2 := by
  refine ⟨fun dc => rfl, fun inRes outRes e h => ?_⟩
  cases inRes with
  | error e1 =>
    left
    refine ⟨e1, ?_⟩
    simpa [ejectM] using h.symm
  | ok u =>
    cases outRes with
    | error e2 =>
      right
      refine ⟨e2, ?_⟩
      simpa [ejectM] using h.symm
    | ok dc =>
      exact absurd h (by simp [ejectM, DuplexCallbackM.into_inner])

/-- C9: when no hand-off channel consumer is present and none arrives via
the mailbox, `on_output_data` reads zero frames and still invokes the user
callback with an empty input view and the untouched live output buffer. -/
theorem onOutputData_no_consumer {Cb : Type} (s : DuplexCallbackM Cb)
    (sr : Nat) (out : AudioBufferM)
    (h1 : s.input = none) (h2 : s.receive_consumer = none) :
    (s.on_output_data sr out).num_samples = 0
    ∧ (s.on_output_data sr out).userInput = []
    ∧ (s.on_output_data sr out).userOutput = out
    ∧ (s.on_output_data sr out).state.storage = s.storage
    ∧ (s.on_output_data sr out).state.input = none := by
  rcases s with ⟨inp, recv, send, cb, st, cur⟩
  cases h1; cases h2
  simp [DuplexCallbackM.on_output_data, AudioBufferM.slice_to]

/-- C9 witness: a concrete consumer-less invocation. -/
theorem onOutputData_no_consumer_witness :
    (((⟨none, none, none, 0, AudioBufferM.zeroed 1 4, 48000⟩ :
        DuplexCallbackM Nat)).on_output_data 44100
        (AudioBufferM.zeroed 2 3)).num_samples = 0
    ∧ (((⟨none, none, none, 0, AudioBufferM.zeroed 1 4, 48000⟩ :
        DuplexCallbackM Nat)).on_output_data 44100
        (AudioBufferM.zeroed 2 3)).userInput = []
    ∧ (((⟨none, none, none, 0, AudioBufferM.zeroed 1 4, 48000⟩ :
        DuplexCallbackM Nat)).on_output_data 44100
        (AudioBufferM.zeroed 2 3)).userOutput = AudioBufferM.zeroed 2 3
    ∧ (((⟨none, none, none, 0, AudioBufferM.zeroed 1 4, 48000⟩ :
        DuplexCallbackM Nat)).on_output_data 44100
        (AudioBufferM.zeroed 2 3)).state.storage = AudioBufferM.zeroed 1 4
    ∧ (((⟨none, none, none, 0, AudioBufferM.zeroed 1 4, 48000⟩ :
        DuplexCallbackM Nat)).on_output_data 44100
        (AudioBufferM.zeroed 2 3)).state.input = none :=
  onOutputData_no_consumer _ 44100 _ rfl rfl

/-- C8: when a target sample rate is pending but the context reports zero
input channels, the input proxy records the no-input-channels error,
constructs no channel, pushes no audio, leaves its producer as it was, and
returns normally with the rate consumed from the mailbox. -/
theorem inputStep_zero_channels (s : SysState) (r sr : Nat)
    (buf : AudioBufferM) (h : s.rateMb = some r) :
    (inputStep s 0 sr buf).errors = s.errors ++ [.noInputChannels]
    ∧ (inputStep s 0 sr buf).constructed = s.constructed
    ∧ (inputStep s 0 sr buf).pushLog = s.pushLog
    ∧ (inputStep s 0 sr buf).producer = s.producer
    ∧ (inputStep s 0 sr buf).rateMb = none := by
  simp [inputStep, h]

/-- C8 witness: a concrete zero-channel cycle with a pending rate. -/
theorem inputStep_zero_channels_witness :
    (inputStep { initState with rateMb := some 44100 } 0 48000
        (AudioBufferM.zeroed 0 4)).errors = initState.errors ++ [.noInputChannels]
    ∧ (inputStep { initState with rateMb := some 44100 } 0 48000
        (AudioBufferM.zeroed 0 4)).constructed = initState.constructed
    ∧ (inputStep { initState with rateMb := some 44100 } 0 48000
        (AudioBufferM.zeroed 0 4)).pushLog = initState.pushLog
    ∧ (inputStep { initState with rateMb := some 44100 } 0 48000
        (AudioBufferM.zeroed 0 4)).producer = initState.producer
    ∧ (inputStep { initState with rateMb := some 44100 } 0 48000
        (AudioBufferM.zeroed 0 4)).rateMb = none :=
  inputStep_zero_channels _ 44100 48000 _ rfl

/-- The consumer `on_output_data` reads from, when one is present after the
mailbox poll: a freshly published one wins over the previously adopted
one. -/
theorem on_output_data_with_consumer {Cb : Type} (s : DuplexCallbackM Cb)
    (sr : Nat) (out : AudioBufferM) (c : ResamplingConsM)
    (h : s.receive_consumer = some c
        ∨ s.receive_consumer = none ∧ s.input = some c) :
    (s.on_output_data sr out).num_samples
      = min s.storage.num_samples c.discard_jitter.fst.available_frames
    ∧ (s.on_output_data sr out).state.storage
      = (readFrames
          (min s.storage.num_samples c.discard_jitter.fst.available_frames)
          0 c.discard_jitter.fst s.storage).snd
    ∧ (s.on_output_data sr out).state.input
      = some (readFrames
          (min s.storage.num_samples c.discard_jitter.fst.available_frames)
          0 c.discard_jitter.fst s.storage).fst
    ∧ (s.on_output_data sr out).userInput
      = (readFrames
          (min s.storage.num_samples c.discard_jitter.fst.available_frames)
          0 c.discard_jitter.fst s.storage).snd.slice_to
          (min s.storage.num_samples c.discard_jitter.fst.available_frames)
    ∧ (s.on_output_data sr out).userOutput = out
    ∧ (s.on_output_data sr out).state.receive_consumer = none := by
  rcases s with ⟨inp, recv, send, cb, st, cur⟩
  rcases h with h | ⟨h1, h2⟩
  · cases h
    by_cases hsr : sr = cur <;> cases send <;>
      simp [DuplexCallbackM.on_output_data, hsr]
  · cases h1; cases h2
    by_cases hsr : sr = cur <;> cases send <;>
      simp [DuplexCallbackM.on_output_data, hsr]

/-- C1 (amended): with a consumer present, the frame count read by
`on_output_data` equals the minimum of the persistent scratch (destination)
buffer's frame capacity and the channel's available frames after jitter
correction, and in particular never exceeds the scratch buffer's
capacity. -/
theorem onOutputData_read_count_min_storage {Cb : Type}
    (s : DuplexCallbackM Cb) (sr : Nat) (out : AudioBufferM)
    (c : ResamplingConsM)
    (h : s.receive_consumer = some c
        ∨ s.receive_consumer = none ∧ s.input = some c) :
    (s.on_output_data sr out).num_samples
      = min s.storage.num_samples c.discard_jitter.fst.available_frames
    ∧ (s.on_output_data sr out).num_samples ≤ s.storage.num_samples := by
  have h1 := (on_output_data_with_consumer s sr out c h).1
  exact ⟨h1, h1 ▸ Nat.min_le_left _ _⟩

/-- C1 witness: a concrete invocation with an adopted consumer: 3 frames
available, scratch capacity 5, so 3 frames are read. -/
theorem onOutputData_read_count_min_storage_witness :
    (((⟨some ⟨[[2], [3], [4]], 100⟩, none, none, 0, AudioBufferM.zeroed 1 5,
        48000⟩ : DuplexCallbackM Nat)).on_output_data 48000
        (AudioBufferM.zeroed 1 7)).num_samples
      = min (AudioBufferM.zeroed 1 5).num_samples
          (⟨[[2], [3], [4]], 100⟩ : ResamplingConsM).discard_jitter.fst.available_frames
    ∧ (((⟨some ⟨[[2], [3], [4]], 100⟩, none, none, 0, AudioBufferM.zeroed 1 5,
        48000⟩ : DuplexCallbackM Nat)).on_output_data 48000
        (AudioBufferM.zeroed 1 7)).num_samples
      ≤ (AudioBufferM.zeroed 1 5).num_samples :=
  onOutputData_read_count_min_storage _ 48000 _ _ (Or.inr ⟨rfl, rfl⟩)

/-- C1 counterexample: the claim's minimum is taken with the *output*
buffer's frame capacity, but the code takes it with the scratch buffer's.
A consumer with 8 available frames, a scratch buffer of 5 frames and a live
output buffer of 10 frames reads 5 frames, not `min 10 8 = 8`. -/
theorem onOutputData_read_count_output_capacity_false :
    ¬ (((⟨some ⟨List.replicate 8 [1], 100⟩, none, none, 0,
          AudioBufferM.zeroed 1 5, 48000⟩ :
          DuplexCallbackM Nat)).on_output_data 48000
          (AudioBufferM.zeroed 1 10)).num_samples
        = min (AudioBufferM.zeroed 1 10).num_samples
            (⟨List.replicate 8 [1], 100⟩ :
              ResamplingConsM).discard_jitter.fst.available_frames := by
  decide

/-- The read loop never changes how many frames the storage buffer holds. -/
theorem readFrames_num_frames (k : Nat) : ∀ (i : Nat) (c : ResamplingConsM)
    (st : AudioBufferM),
    (readFrames k i c st).snd.frames.length = st.frames.length := by
  induction k with
  | zero => intro i c st; rfl
  | succ k ih =>
    intro i c st
    rw [readFrames, ih]
    simp [AudioBufferM.set_frame]

/-- The read loop writes only the frame indices it visits: a frame at an
index at or beyond `i + k` is left exactly as it was. -/
theorem readFrames_frame_untouched (k : Nat) : ∀ (i : Nat)
    (c : ResamplingConsM) (st : AudioBufferM) (j : Nat), i + k ≤ j →
    (readFrames k i c st).snd.frames[j]? = st.frames[j]? := by
  induction k with
  | zero => intro i c st j _; rfl
  | succ k ih =>
    intro i c st j hj
    rw [readFrames, ih (i + 1) _ _ j (by omega)]
    simp only [AudioBufferM.set_frame]
    exact List.getElem?_set_ne (by omega)

/-- C5: when the hand-off channel has fewer available frames (after jitter
correction) than the scratch/destination buffer's capacity, the input view
handed to the user callback covers exactly the available count that was
read, and every frame of the destination buffer beyond that count is left
unchanged by the bridge during that invocation. -/
theorem onOutputData_partial_read_frame_effect {Cb : Type}
    (s : DuplexCallbackM Cb) (sr : Nat) (out : AudioBufferM)
    (c : ResamplingConsM)
    (h : s.receive_consumer = some c
        ∨ s.receive_consumer = none ∧ s.input = some c)
    (hlt : c.discard_jitter.fst.available_frames < s.storage.num_samples) :
    (s.on_output_data sr out).userInput.length
      = c.discard_jitter.fst.available_frames
    ∧ (s.on_output_data sr out).num_samples
      = c.discard_jitter.fst.available_frames
    ∧ ∀ j, c.discard_jitter.fst.available_frames ≤ j →
        (s.on_output_data sr out).state.storage.frames[j]?
          = s.storage.frames[j]? := by
  obtain ⟨hn, hst, -, hui, -, -⟩ := on_output_data_with_consumer s sr out c h
  have hmin : min s.storage.num_samples c.discard_jitter.fst.available_frames
      = c.discard_jitter.fst.available_frames :=
    Nat.min_eq_right (Nat.le_of_lt hlt)
  refine ⟨?_, by rw [hn, hmin], fun j hj => ?_⟩
  · rw [hui, hmin, AudioBufferM.slice_to, List.length_take,
      readFrames_num_frames]
    exact Nat.min_eq_left (Nat.le_of_lt hlt)
  · rw [hst, hmin]
    exact readFrames_frame_untouched _ 0 _ _ j (by omega)

/-- C5 witness: 2 frames available against a 5-frame scratch buffer: the
view has exactly 2 frames and frames 2.. of the scratch buffer keep their
prior (zero) content. -/
theorem onOutputData_partial_read_frame_effect_witness :
    (((⟨some ⟨[[7], [9]], 100⟩, none, none, 0, AudioBufferM.zeroed 1 5,
        48000⟩ : DuplexCallbackM Nat)).on_output_data 48000
        (AudioBufferM.zeroed 1 6)).userInput.length
      = (⟨[[7], [9]], 100⟩ : ResamplingConsM).discard_jitter.fst.available_frames
    ∧ (((⟨some ⟨[[7], [9]], 100⟩, none, none, 0, AudioBufferM.zeroed 1 5,
        48000⟩ : DuplexCallbackM Nat)).on_output_data 48000
        (AudioBufferM.zeroed 1 6)).num_samples
      = (⟨[[7], [9]], 100⟩ : ResamplingConsM).discard_jitter.fst.available_frames
    ∧ ∀ j, (⟨[[7], [9]], 100⟩ : ResamplingConsM).discard_jitter.fst.available_frames ≤ j →
        (((⟨some ⟨[[7], [9]], 100⟩, none, none, 0, AudioBufferM.zeroed 1 5,
            48000⟩ : DuplexCallbackM Nat)).on_output_data 48000
            (AudioBufferM.zeroed 1 6)).state.storage.frames[j]?
          = (AudioBufferM.zeroed 1 5).frames[j]? :=
  onOutputData_partial_read_frame_effect _ 48000 _ _ (Or.inr ⟨rfl, rfl⟩)
    (by decide)

/-- Every chunk produced by the 32-frame chunking holds at most 32
frames. -/
theorem chunkFrames_length_le (l : List (List Sample)) :
    ∀ fs ∈ chunkFrames l, fs.length ≤ 32 := by
  induction l using chunkFrames.induct with
  | case1 => intro fs hfs; simp [chunkFrames] at hfs
  | case2 x xs ih =>
    intro fs hfs
    rw [chunkFrames] at hfs
    rcases List.mem_cons.mp hfs with h | h
    · subst h
      simp only [List.length_cons, List.length_take]
      omega
    · exact ih fs h

/-- C7: when the input proxy forwards captured audio (a producer is held
and the stream reports a nonzero channel count, as any stream that ever
constructed a producer does), the buffer is copied into interleaved form in
chunks of at most 32 frames, each chunk's interleaved length is at most
32 × `MAX_CHANNELS` samples (the scratch array's size) whenever the channel
count is at most `MAX_CHANNELS`, the interleaved copy of each chunk
succeeds, and each interleaved chunk is pushed into the producer side in
order. -/
theorem inputStep_chunked_interleaved_push (s : SysState) (ch sr : Nat)
    (buf : AudioBufferM) (hch : ch ≠ 0) (hprod : s.producer.isSome = true)
    (hb : buf.numChannels ≤ MAX_CHANNELS) :
    (∀ cbuf ∈ buf.chunks32, cbuf.num_samples ≤ 32
        ∧ cbuf.num_samples * cbuf.numChannels ≤ 32 * MAX_CHANNELS
        ∧ cbuf.copy_into_interleaved (cbuf.num_samples * cbuf.numChannels)
            = true)
    ∧ ∃ pid, (inputStep s ch sr buf).producer = some pid
        ∧ (inputStep s ch sr buf).pushLog
            = s.pushLog ++ buf.chunks32.map fun cbuf =>
                (pid, cbuf.interleaved) := by
  constructor
  · intro cbuf hc
    obtain ⟨fs, hfs, rfl⟩ := List.mem_map.mp hc
    have hlen := chunkFrames_length_le buf.frames fs hfs
    refine ⟨hlen, ?_, ?_⟩
    · exact Nat.mul_le_mul hlen hb
    · simp [AudioBufferM.copy_into_interleaved]
  · cases hmb : s.rateMb with
    | none =>
      obtain ⟨pid, hpid⟩ := Option.isSome_iff_exists.mp hprod
      refine ⟨pid, ?_, ?_⟩ <;> simp [inputStep, hmb, pushAudio, hpid]
    | some r =>
      refine ⟨s.nextId, ?_, ?_⟩ <;>
        cases hcm : s.consMb <;>
          simp [inputStep, hmb, hch, pushAudio, hcm]

/-- C7 witness: two channels, 34 captured frames, one held producer: two
chunks (32 and 2 frames) are interleaved and pushed. -/
theorem inputStep_chunked_interleaved_push_witness :
    (∀ cbuf ∈ (AudioBufferM.zeroed 2 34).chunks32, cbuf.num_samples ≤ 32
        ∧ cbuf.num_samples * cbuf.numChannels ≤ 32 * MAX_CHANNELS
        ∧ cbuf.copy_into_interleaved (cbuf.num_samples * cbuf.numChannels)
            = true)
    ∧ ∃ pid, (inputStep { initState with producer := some 7 } 2 48000
          (AudioBufferM.zeroed 2 34)).producer = some pid
        ∧ (inputStep { initState with producer := some 7 } 2 48000
            (AudioBufferM.zeroed 2 34)).pushLog
            = ({ initState with producer := some 7 } : SysState).pushLog
              ++ (AudioBufferM.zeroed 2 34).chunks32.map fun cbuf =>
                  (pid, cbuf.interleaved) :=
  inputStep_chunked_interleaved_push _ 2 48000 _ (by decide) rfl (by decide)

/-- Forwarding audio touches only the push log: every control field of the
system state survives `pushAudio`. -/
theorem pushAudio_control (s : SysState) (buf : AudioBufferM) :
    (pushAudio s buf).pushedRates = s.pushedRates
    ∧ (pushAudio s buf).current_samplerate = s.current_samplerate
    ∧ (pushAudio s buf).constructed = s.constructed
    ∧ (pushAudio s buf).rateMb = s.rateMb
    ∧ (pushAudio s buf).adopted = s.adopted
    ∧ (pushAudio s buf).consMb = s.consMb
    ∧ (pushAudio s buf).producer = s.producer := by
  cases h : s.producer <;> simp [pushAudio, h]

/-- The input proxy never touches the output side's published-rate state. -/
theorem inputStep_control (s : SysState) (ch sr : Nat) (buf : AudioBufferM) :
    (inputStep s ch sr buf).pushedRates = s.pushedRates
    ∧ (inputStep s ch sr buf).current_samplerate = s.current_samplerate
    ∧ (inputStep s ch sr buf).adopted = s.adopted := by
  cases hmb : s.rateMb with
  | none =>
    simp only [inputStep, hmb]
    exact ⟨(pushAudio_control s buf).1, (pushAudio_control s buf).2.1,
      (pushAudio_control s buf).2.2.2.2.1⟩
  | some r =>
    by_cases hch : ch = 0
    · simp [inputStep, hmb, hch]
    · cases hcm : s.consMb <;>
        simp [inputStep, hmb, hch, hcm, pushAudio]

/-- Adopting a consumer touches neither the channel-construction state nor
the published-rate state. -/
theorem adoptStep_control (s : SysState) :
    (adoptStep s).pushedRates = s.pushedRates
    ∧ (adoptStep s).current_samplerate = s.current_samplerate
    ∧ (adoptStep s).constructed = s.constructed
    ∧ (adoptStep s).rateMb = s.rateMb := by
  cases h : s.consMb <;> simp [adoptStep, h]

/-- A publish attempt with an unchanged observed rate is a no-op. -/
theorem publishStep_same_rate (s : SysState) (sr : Nat)
    (h : sr = s.current_samplerate) : publishStep s sr = s := by
  simp [publishStep, h]

/-- A publish attempt against an occupied mailbox slot is a no-op. -/
theorem publishStep_full (s : SysState) (sr r : Nat)
    (h : s.rateMb = some r) : publishStep s sr = s := by
  unfold publishStep
  split
  · rw [h]
  · rfl

/-- A successful publish: rate differs and the slot is free. -/
theorem publishStep_success (s : SysState) (sr : Nat)
    (h1 : sr ≠ s.current_samplerate) (h2 : s.rateMb = none) :
    publishStep s sr
      = { s with rateMb := some sr, current_samplerate := sr,
                 pushedRates := s.pushedRates ++ [sr] } := by
  unfold publishStep
  rw [if_pos h1, h2]

/-- Publishing touches neither the adoption state nor the construction
log. -/
theorem publishStep_control (s : SysState) (sr : Nat) :
    (publishStep s sr).adopted = s.adopted
    ∧ (publishStep s sr).consMb = s.consMb
    ∧ (publishStep s sr).constructed = s.constructed := by
  unfold publishStep
  split
  · cases s.rateMb <;> simp
  · simp

/-- Counting changes from one reference value or another differs by at most
one. -/
theorem numChangesFrom_le_succ (a b : Nat) (l : List Nat) :
    numChangesFrom a l ≤ 1 + numChangesFrom b l := by
  cases l with
  | nil => simp [numChangesFrom]
  | cons x xs =>
    simp only [numChangesFrom]
    have h1 : (if x = a then 0 else 1) ≤ 1 := by split <;> omega
    have h2 : (0 : Nat) ≤ (if x = b then 0 else 1) := by omega
    omega

/-- Counting changes of a rate sequence from the initial cached rate 0
exceeds the sequence's own change count by at most one (its first
element may differ from 0). -/
theorem numChangesFrom_zero_le (l : List Nat) :
    numChangesFrom 0 l ≤ numChanges l + 1 := by
  cases l with
  | nil => simp [numChangesFrom, numChanges]
  | cons x xs =>
    simp only [numChangesFrom, numChanges]
    split <;> omega

/-- A successful publish, field by field. -/
theorem publishStep_success_fields (s : SysState) (sr : Nat)
    (h1 : sr ≠ s.current_samplerate) (h2 : s.rateMb = none) :
    (publishStep s sr).pushedRates = s.pushedRates ++ [sr]
    ∧ (publishStep s sr).current_samplerate = sr
    ∧ (publishStep s sr).rateMb = some sr
    ∧ (publishStep s sr).constructed = s.constructed := by
  unfold publishStep
  rw [if_pos h1, h2]
  exact ⟨rfl, rfl, rfl, rfl⟩

/-- Along any trace, the number of successfully published rates grows by at
most the number of times the observed output rate changes, counting a first
observation that differs from the cached rate as a change. -/
theorem run_pushedRates_le (t : List Ev) : ∀ s : SysState,
    (run s t).pushedRates.length
      ≤ s.pushedRates.length
        + numChangesFrom s.current_samplerate (observedRates t) := by
  induction t with
  | nil => intro s; simp [run, observedRates, numChangesFrom]
  | cons e t ih =>
    intro s
    cases e with
    | inputCb ch sr buf =>
      have h1 := inputStep_control s ch sr buf
      have h2 := ih (inputStep s ch sr buf)
      have hrun : run s (Ev.inputCb ch sr buf :: t)
          = run (inputStep s ch sr buf) t := rfl
      have hobs : observedRates (Ev.inputCb ch sr buf :: t)
          = observedRates t := by
        simp [observedRates]
      rw [hrun, hobs]
      rw [h1.1, h1.2.1] at h2
      exact h2
    | outputCb sr =>
      have h2 := ih (outputStep s sr)
      have hout : outputStep s sr = adoptStep (publishStep s sr) := rfl
      have hadopt := adoptStep_control (publishStep s sr)
      have hobs : observedRates (Ev.outputCb sr :: t)
          = sr :: observedRates t := by
        simp [observedRates]
      have hrun : run s (Ev.outputCb sr :: t) = run (outputStep s sr) t := rfl
      rw [hrun, hobs]
      simp only [numChangesFrom]
      rw [hout] at h2
      by_cases hsr : sr = s.current_samplerate
      · rw [hout, publishStep_same_rate s sr hsr]
        rw [publishStep_same_rate s sr hsr] at h2 hadopt
        rw [hadopt.1, hadopt.2.1] at h2
        rw [if_pos hsr, hsr]
        omega
      · cases hmb : s.rateMb with
        | some r =>
          rw [hout, publishStep_full s sr r hmb]
          rw [publishStep_full s sr r hmb] at h2 hadopt
          rw [hadopt.1, hadopt.2.1] at h2
          have hle := numChangesFrom_le_succ s.current_samplerate sr
            (observedRates t)
          rw [if_neg hsr]
          omega
        | none =>
          have hsucc := publishStep_success_fields s sr hsr hmb
          rw [hout]
          rw [hadopt.1, hadopt.2.1, hsucc.1, hsucc.2.1] at h2
          simp only [List.length_append, List.length_cons,
            List.length_nil] at h2
          rw [if_neg hsr]
          omega

/-- How many values a single-slot mailbox holds. -/
def slotCount {α : Type} : Option α → Nat
  | none => 0
  | some _ => 1

/-- One step preserves the channel-accounting invariant: constructions plus
the rate value still waiting in the output→input mailbox never exceed the
successful rate publishes. -/
theorem constructed_invariant_step (s : SysState) (e : Ev)
    (h : s.constructed.length + slotCount s.rateMb
        ≤ s.pushedRates.length) :
    (step s e).constructed.length + slotCount (step s e).rateMb
      ≤ (step s e).pushedRates.length := by
  cases e with
  | inputCb ch sr buf =>
    show (inputStep s ch sr buf).constructed.length
        + slotCount (inputStep s ch sr buf).rateMb
      ≤ (inputStep s ch sr buf).pushedRates.length
    cases hmb : s.rateMb with
    | none =>
      simp only [inputStep, hmb]
      have hc := pushAudio_control s buf
      rw [hc.1, hc.2.2.1, hc.2.2.2.1]
      exact h
    | some r =>
      rw [hmb] at h
      by_cases hch : ch = 0
      · simp only [inputStep, hmb, hch, if_pos]
        simp only [slotCount] at h ⊢
        omega
      · cases hcm : s.consMb <;>
          · simp only [inputStep, hmb, hch, if_neg, not_false_iff, hcm,
              pushAudio, List.length_append, List.length_cons,
              List.length_nil, slotCount]
            simp only [slotCount] at h
            omega
  | outputCb sr =>
    show (outputStep s sr).constructed.length
        + slotCount (outputStep s sr).rateMb
      ≤ (outputStep s sr).pushedRates.length
    have hadopt := adoptStep_control (publishStep s sr)
    rw [show outputStep s sr = adoptStep (publishStep s sr) from rfl,
      hadopt.1, hadopt.2.2.1, hadopt.2.2.2]
    by_cases hsr : sr = s.current_samplerate
    · rw [publishStep_same_rate s sr hsr]
      exact h
    · cases hmb : s.rateMb with
      | some r =>
        rw [publishStep_full s sr r hmb]
        exact h
      | none =>
        have hsucc := publishStep_success_fields s sr hsr hmb
        rw [hsucc.1, hsucc.2.2.1, hsucc.2.2.2]
        rw [hmb] at h
        simp only [slotCount, List.length_append, List.length_cons,
          List.length_nil] at h ⊢
        omega

/-- The channel-accounting invariant holds along any run that starts in a
state satisfying it. -/
theorem constructed_invariant_run (t : List Ev) : ∀ s : SysState,
    s.constructed.length + slotCount s.rateMb ≤ s.pushedRates.length →
    (run s t).constructed.length + slotCount (run s t).rateMb
      ≤ (run s t).pushedRates.length := by
  induction t with
  | nil => intro s h; exact h
  | cons e t ih =>
    intro s h
    exact ih (step s e) (constructed_invariant_step s e h)

/-- One step preserves the adoption-order invariant: the adopted consumers
followed by the consumer still in transit in the input→output mailbox form
a sublist of the constructed channels, in construction order. -/
theorem adopted_invariant_step (s : SysState) (e : Ev)
    (h : (s.adopted ++ s.consMb.toList).Sublist s.constructed) :
    ((step s e).adopted ++ (step s e).consMb.toList).Sublist
      (step s e).constructed := by
  cases e with
  | inputCb ch sr buf =>
    show ((inputStep s ch sr buf).adopted
        ++ (inputStep s ch sr buf).consMb.toList).Sublist
      (inputStep s ch sr buf).constructed
    cases hmb : s.rateMb with
    | none =>
      simp only [inputStep, hmb]
      have hc := pushAudio_control s buf
      rw [hc.2.2.1, hc.2.2.2.2.1, hc.2.2.2.2.2.1]
      exact h
    | some r =>
      by_cases hch : ch = 0
      · simp only [inputStep, hmb, hch, if_pos]
        exact h
      · cases hcm : s.consMb with
        | none =>
          simp only [inputStep, hmb, hch, if_neg, not_false_iff, hcm,
            pushAudio, Option.toList]
          rw [hcm] at h
          simp only [Option.toList, List.append_nil] at h
          exact h.append (List.Sublist.refl [s.nextId])
        | some old =>
          simp only [inputStep, hmb, hch, if_neg, not_false_iff, hcm,
            pushAudio, Option.toList]
          rw [hcm] at h
          simp only [Option.toList] at h
          exact h.trans (List.sublist_append_left s.constructed [s.nextId])
  | outputCb sr =>
    show ((outputStep s sr).adopted
        ++ (outputStep s sr).consMb.toList).Sublist
      (outputStep s sr).constructed
    have hpub := publishStep_control s sr
    rw [show outputStep s sr = adoptStep (publishStep s sr) from rfl]
    cases hcm : (publishStep s sr).consMb with
    | none =>
      have hs : s.consMb = none := hpub.2.1.symm.trans hcm
      simp only [adoptStep, hcm]
      rw [hpub.1, hpub.2.2]
      rw [hs] at h
      exact h
    | some cid =>
      have hs : s.consMb = some cid := hpub.2.1.symm.trans hcm
      simp only [adoptStep, hcm, Option.toList, List.append_nil]
      rw [hpub.1, hpub.2.2]
      rw [hs] at h
      simp only [Option.toList] at h
      exact h

/-- The adoption-order invariant holds along any run that starts in a state
satisfying it. -/
theorem adopted_invariant_run (t : List Ev) : ∀ s : SysState,
    (s.adopted ++ s.consMb.toList).Sublist s.constructed →
    ((run s t).adopted ++ (run s t).consMb.toList).Sublist
      (run s t).constructed := by
  induction t with
  | nil => intro s h; exact h
  | cons e t ih =>
    intro s h
    exact ih (step s e) (adopted_invariant_step s e h)

/-- C3 (amended): if the output sample rate observed by the duplex callback
changes N times along a trace, the input proxy constructs at most N + 1
hand-off channels (one per successful rate publish; a publish can fail on a
full mailbox and a change can be superseded before being published, so
fewer constructions are possible), and the duplex callback adopts channel
consumers in exactly the order they were constructed, with no reordering
(the adopted sequence is a sublist of the construction sequence). -/
theorem run_channel_count_bound_and_adoption_order (t : List Ev) :
    (run initState t).constructed.length ≤ numChanges (observedRates t) + 1
    ∧ (run initState t).adopted.Sublist (run initState t).constructed := by
  have hB := constructed_invariant_run t initState
    (by simp [initState, slotCount])
  have hA := adopted_invariant_run t initState (by simp [initState])
  have hP := run_pushedRates_le t initState
  have h0 := numChangesFrom_zero_le (observedRates t)
  constructor
  · have hc0 : initState.pushedRates.length = 0 := rfl
    have hc1 : initState.current_samplerate = 0 := rfl
    rw [hc0, hc1] at hP
    omega
  · exact (List.sublist_append_left _ _).trans hA

/-- C3 counterexample: rates 48000, 44100, 48000 are observed (two
changes), but the second change's publish is rejected by the still-full
mailbox and the third observation matches the cached rate, so the proxy
constructs one channel, not two. -/
theorem run_channel_count_not_exactly_changes :
    ¬ ((run initState [Ev.outputCb 48000, Ev.outputCb 44100,
          Ev.outputCb 48000,
          Ev.inputCb 2 48000 (AudioBufferM.zeroed 2 4)]).constructed.length
        = numChanges (observedRates [Ev.outputCb 48000, Ev.outputCb 44100,
          Ev.outputCb 48000,
          Ev.inputCb 2 48000 (AudioBufferM.zeroed 2 4)])) := by
  decide

/-- C4: if the output sample rate observed by the duplex callback never
changes after the first invocation, at most one hand-off channel is
constructed over the whole execution and at most one consumer is ever
installed on the output side, so an installed channel is never replaced on
either side. -/
theorem run_rate_constant_single_channel (t : List Ev)
    (h : numChanges (observedRates t) = 0) :
    (run initState t).constructed.length ≤ 1
    ∧ (run initState t).adopted.length ≤ 1 := by
  have hB := constructed_invariant_run t initState
    (by simp [initState, slotCount])
  have hA := adopted_invariant_run t initState (by simp [initState])
  have hP := run_pushedRates_le t initState
  have h0 := numChangesFrom_zero_le (observedRates t)
  have hsub : (run initState t).adopted.Sublist
      (run initState t).constructed :=
    (List.sublist_append_left _ _).trans hA
  have hlen := hsub.length_le
  have hc0 : initState.pushedRates.length = 0 := rfl
  have hc1 : initState.current_samplerate = 0 := rfl
  rw [hc0, hc1] at hP
  omega

/-- C4 witness: a constant 48000 Hz output rate across three invocations
constructs and adopts at most one channel. -/
theorem run_rate_constant_single_channel_witness :
    (run initState [Ev.outputCb 48000,
        Ev.inputCb 1 44100 (AudioBufferM.zeroed 1 2),
        Ev.outputCb 48000]).constructed.length ≤ 1
    ∧ (run initState [Ev.outputCb 48000,
        Ev.inputCb 1 44100 (AudioBufferM.zeroed 1 2),
        Ev.outputCb 48000]).adopted.length ≤ 1 :=
  run_rate_constant_single_channel _ (by decide)
